import Mathlib

/-!
Verification development for the raw-timestamps exporter
(`QUE_raw_timestamps.py`).

The program's core is `process_raw_timestamps`, which extracts milestone
timestamps for one manufacturing cycle from a flat list of workstation
visit records, plus two timestamp helpers: `parse_timestamp` (ISO parsing
for sort keys, defaulting to `datetime.min`) and `convert_to_raw_timestamp`
(the display transform).

Modelling conventions:
* Python `datetime` values are `Dt`: either timezone-naive or
  timezone-aware, both carrying the wall-clock value as microseconds since
  0001-01-01T00:00:00 (so `datetime.min` is `Dt.naive 0`); aware values
  additionally carry the UTC offset in microseconds.
* Python comparison of a naive with an aware datetime raises `TypeError`;
  datetime arithmetic leaving the representable range raises
  `OverflowError`. Fallible computations therefore live in `Except PyErr`.
* `datetime.fromisoformat` is modelled by `fromisoformat`, implementing the
  classic CPython (< 3.11) ISO-8601 grammar
  `YYYY-MM-DD[<sep>HH[:MM[:SS[.fff[fff]]]][+-HH:MM[:SS[.ffffff]]]]`
  with the component range checks CPython performs (month, day, hour,
  minute, second validated; timezone offset only required to be strictly
  less than 24 hours in magnitude).
* `list.sort` / `sorted` with a key function is modelled by a stable
  insertion sort; on totally comparable keys this agrees with CPython's
  stable sort, and key comparisons go through `Except` so that mixed
  naive/aware keys fail as in Python.
-/

/-! ## Python error model -/

/-- Exceptions that can escape the modelled code paths: `TypeError` from
comparing naive with aware datetimes, `OverflowError` from datetime
arithmetic leaving the representable range. -/
inductive PyErr where
  | typeError
  | overflowError
deriving Repr, DecidableEq

/-! ## Calendar arithmetic (proleptic Gregorian, as used by `datetime`) -/

/-- Gregorian leap-year test. -/
def isLeap (y : Nat) : Bool :=
  y % 4 = 0 && (y % 100 ≠ 0 || y % 400 = 0)

/-- Number of days in month `m` (1-based) of year `y`. -/
def daysInMonth (y m : Nat) : Nat :=
  if m = 2 then (if isLeap y then 29 else 28)
  else if m = 4 || m = 6 || m = 9 || m = 11 then 30
  else 31

/-- Days in year `y` before the first day of month `m` (1-based). -/
def daysBeforeMonth (y m : Nat) : Nat :=
  [0, 0, 31, 59, 90, 120, 151, 181, 212, 243, 273, 304, 334].getD m 0 +
    (if 2 < m && isLeap y then 1 else 0)

/-- Days before January 1 of year `y`, counted from 0001-01-01 (so
`daysBeforeYear 1 = 0`); matches CPython's `_days_before_year`. -/
def daysBeforeYear (y : Nat) : Nat :=
  let n := y - 1
  365 * n + n / 4 - n / 100 + n / 400

/-- Proleptic-Gregorian ordinal of the date `y-m-d`
(0001-01-01 has ordinal 1), as CPython's `_ymd2ord`. -/
def ymdToOrdinal (y m d : Nat) : Nat :=
  daysBeforeYear y + daysBeforeMonth y m + d

/-- Microseconds since 0001-01-01T00:00:00 of the naive datetime with the
given components. -/
def usOfYmdhms (y m d hh mi ss us : Nat) : Nat :=
  ((ymdToOrdinal y m d - 1) * 86400 + hh * 3600 + mi * 60 + ss) * 1000000 + us

/-- Microseconds value of `datetime.max` = 9999-12-31T23:59:59.999999. -/
def maxUs : Nat := usOfYmdhms 9999 12 31 23 59 59 999999

/-- Inverse calendar conversion: from days since 0001-01-01 to `(y, m, d)`
(civil-from-days algorithm). -/
def civilFromDays (z : Nat) : Nat × Nat × Nat :=
  let n := z + 306
  let era := n / 146097
  let doe := n % 146097
  let yoe := (doe - doe / 1460 + doe / 36524 - doe / 146096) / 365
  let doy := doe - (365 * yoe + yoe / 4 - yoe / 100)
  let mp := (5 * doy + 2) / 153
  let d := doy - (153 * mp + 2) / 5 + 1
  let m := if mp < 10 then mp + 3 else mp - 9
  let y := yoe + era * 400
  (if m ≤ 2 then y + 1 else y, m, d)

/-- Zero-pad a number to two digits, as `strftime` does for
`%m %d %H %M %S`. -/
def pad2 (n : Nat) : String :=
  if n < 10 then "0" ++ toString n else toString n

/-- `strftime('%Y-%m-%d %H:%M:%S')` on the naive datetime with the given
microsecond value (`%Y` is the unpadded decimal year, as on glibc
platforms; fractional seconds are dropped). -/
def strftimeYmdHms (t : Nat) : String :=
  let totalSec := t / 1000000
  let days := totalSec / 86400
  let rem := totalSec % 86400
  let ymd := civilFromDays days
  toString ymd.1 ++ "-" ++ pad2 ymd.2.1 ++ "-" ++ pad2 ymd.2.2 ++ " " ++
    pad2 (rem / 3600) ++ ":" ++ pad2 (rem % 3600 / 60) ++ ":" ++ pad2 (rem % 60)

/-! ## The `datetime` value model -/

/-- A Python `datetime` as far as this program observes it: the wall-clock
value in microseconds since 0001-01-01T00:00:00, and for aware values the
UTC offset in microseconds. `datetime.min` is `naive 0`. -/
inductive Dt where
  | naive (t : Int)
  | aware (t : Int) (off : Int)
deriving Repr, DecidableEq

/-- Wall-clock microseconds of a datetime; this is what
`dt.replace(tzinfo=None)` keeps. -/
def naivePart : Dt → Int
  | .naive t => t
  | .aware t _ => t

/-- Whether a datetime is timezone-naive. -/
def dtIsNaive : Dt → Bool
  | .naive _ => true
  | .aware _ _ => false

/-- Python `<=` on datetimes: naive values compare by wall clock, aware
values compare as UTC instants, and comparing naive with aware raises
`TypeError`. -/
def dtLe : Dt → Dt → Except PyErr Bool
  | .naive a, .naive b => .ok (decide (a ≤ b))
  | .aware a oa, .aware b ob => .ok (decide (a - oa ≤ b - ob))
  | _, _ => .error .typeError

/-- Python `>=` on datetimes (used by the cycle filter). -/
def dtGe (a b : Dt) : Except PyErr Bool := dtLe b a

/-! ## ISO-8601 parsing (`datetime.fromisoformat`) -/

/-- Value of a decimal digit character, if any. -/
def digitVal (c : Char) : Option Nat :=
  if c.isDigit then some (c.toNat - 48) else none

/-- Read exactly `k` decimal digits from the front of the character list,
returning their value and the remaining characters. -/
def readNDigits : Nat → List Char → Option (Nat × List Char)
  | 0, cs => some (0, cs)
  | _ + 1, [] => none
  | k + 1, c :: cs =>
      match digitVal c with
      | none => none
      | some d =>
          match readNDigits k cs with
          | none => none
          | some (r, rest) => some (d * 10 ^ k + r, rest)

/-- Consume one expected character. -/
def expectChar (c : Char) : List Char → Option (List Char)
  | x :: rest => if x = c then some rest else none
  | [] => none

/-- Parse the optional fractional-second part: CPython (< 3.11) accepts a
dot followed by exactly 3 or 6 digits; yields microseconds. -/
def parseFraction (cs : List Char) : Option (Nat × List Char) :=
  match cs with
  | '.' :: rest =>
      match readNDigits 6 rest with
      | some (f6, rest6) => some (f6, rest6)
      | none =>
          match readNDigits 3 rest with
          | some (f3, rest3) => some (f3 * 1000, rest3)
          | none => none
  | _ => some (0, cs)

/-- Parse `HH[:MM[:SS[.fff[fff]]]]` as CPython's time-part parser does;
yields total microseconds within the day and the rest of the input. The
hour/minute/second range checks mirror the `time` constructor. -/
def parseTimePart (cs : List Char) : Option (Nat × List Char) :=
  match readNDigits 2 cs with
  | none => none
  | some (hh, r1) =>
      if 23 < hh then none else
      match expectChar ':' r1 with
      | none => some (hh * 3600 * 1000000, r1)
      | some r2 =>
          match readNDigits 2 r2 with
          | none => none
          | some (mi, r3) =>
              if 59 < mi then none else
              match expectChar ':' r3 with
              | none => some ((hh * 3600 + mi * 60) * 1000000, r3)
              | some r4 =>
                  match readNDigits 2 r4 with
                  | none => none
                  | some (ss, r5) =>
                      if 59 < ss then none else
                      match parseFraction r5 with
                      | none => none
                      | some (us, r6) =>
                          some ((hh * 3600 + mi * 60 + ss) * 1000000 + us, r6)

/-- Parse a timezone offset `+HH:MM[:SS[.ffffff]]` or `-...`; yields the
offset in microseconds. CPython does not range-check the minute/second
fields here, but the `timezone` constructor requires the total offset to be
strictly between -24h and +24h. -/
def parseTzPart (cs : List Char) : Option (Int × List Char) :=
  match cs with
  | sign :: rest =>
      if sign = '+' || sign = '-' then
        match readNDigits 2 rest with
        | none => none
        | some (oh, r1) =>
            match expectChar ':' r1 with
            | none => none
            | some r2 =>
                match readNDigits 2 r2 with
                | none => none
                | some (om, r3) =>
                    let more : Option (Nat × List Char) :=
                      match expectChar ':' r3 with
                      | none => some (0, r3)
                      | some r4 =>
                          match readNDigits 2 r4 with
                          | none => none
                          | some (os, r5) =>
                              match parseFraction r5 with
                              | none => none
                              | some (ous, r6) => some (os * 1000000 + ous, r6)
                    match more with
                    | none => none
                    | some (osus, rest') =>
                        let total : Nat := (oh * 3600 + om * 60) * 1000000 + osus
                        if total < 24 * 3600 * 1000000 then
                          some (if sign = '-' then -(total : Int) else (total : Int), rest')
                        else none
      else none
  | [] => none

/-- Model of `datetime.fromisoformat` (classic CPython < 3.11 grammar):
`YYYY-MM-DD` optionally followed by any one separator character, a time
part, and a timezone offset. Returns `none` where CPython raises
`ValueError` (which callers catch). -/
def fromisoformat (s : String) : Option Dt :=
  match readNDigits 4 s.data with
  | none => none
  | some (y, r1) =>
      match expectChar '-' r1 with
      | none => none
      | some r2 =>
          match readNDigits 2 r2 with
          | none => none
          | some (m, r3) =>
              match expectChar '-' r3 with
              | none => none
              | some r4 =>
                  match readNDigits 2 r4 with
                  | none => none
                  | some (d, r5) =>
                      if y < 1 || m < 1 || 12 < m || d < 1 || daysInMonth y m < d then
                        none
                      else
                        let dayUs : Nat := (ymdToOrdinal y m d - 1) * 86400 * 1000000
                        match r5 with
                        | [] => some (.naive (dayUs : Int))
                        | _ :: r6 =>
                            match parseTimePart r6 with
                            | none => none
                            | some (tus, r7) =>
                                let t : Int := ((dayUs + tus : Nat) : Int)
                                match r7 with
                                | [] => some (.naive t)
                                | _ =>
                                    match parseTzPart r7 with
                                    | none => none
                                    | some (off, r8) =>
                                        match r8 with
                                        | [] => some (.aware t off)
                                        | _ => none

/-- Model of Python `s.replace('Z', '+00:00')` (the pattern is a single
character, so this is character-wise substitution). -/
def pyReplaceZ (s : String) : String :=
  ⟨s.data.flatMap fun ch =>
    if ch = 'Z' then ['+', '0', '0', ':', '0', '0'] else [ch]⟩

/-! ## The two timestamp helpers from the source -/

/-- `WebRawTimestampsExporter.parse_timestamp`: parse an ISO timestamp for
sorting; a missing, empty, or unparseable string becomes `datetime.min`
(never raises). -/
def parse_timestamp (ts : Option String) : Dt :=
  match ts with
  | none => .naive 0
  | some s =>
      if s = "" then .naive 0
      else
        match fromisoformat (pyReplaceZ s) with
        | some d => d
        | none => .naive 0

/-- `convert_to_raw_timestamp`: parse the ISO timestamp (with `Z` replaced
by `+00:00`), drop the timezone, add `timedelta(hours=-8)` then
`timedelta(hours=4)`, and format with `strftime('%Y-%m-%d %H:%M:%S')`.
Parse failures (`ValueError`) are caught and return the input; datetime
arithmetic leaving the representable range raises `OverflowError`, which
the source's `except (ValueError, AttributeError)` does not catch. -/
def convert_to_raw_timestamp (iso : String) : Except PyErr String :=
  if iso = "" then .ok ""
  else
    match fromisoformat (pyReplaceZ iso) with
    | none => .ok iso
    | some dt =>
        let u1 : Int := naivePart dt + (-8) * 3600 * 1000000
        if u1 < 0 || (maxUs : Int) < u1 then .error .overflowError
        else
          let u2 : Int := u1 + 4 * 3600 * 1000000
          if u2 < 0 || (maxUs : Int) < u2 then .error .overflowError
          else .ok (strftimeYmdHms u2.toNat)

/-! ## Visit records and grouping -/

/-- One raw history record as consumed by `process_raw_timestamps`;
`record.get(k)` yields `none` for a missing or null field. -/
structure Record where
  source : Option String
  workstation_name : Option String
  history_station_start_time : Option String
  history_station_end_time : Option String
deriving Repr, DecidableEq, Inhabited

/-- One `{'start': ..., 'end': ...}` entry of the stations dictionary
(`end` is a reserved word in Lean, hence `end_`). -/
structure Visit where
  start : Option String
  end_ : Option String
deriving Repr, DecidableEq, Inhabited

/-- Python truthiness of an optional string: `None` and `''` are falsy. -/
def truthy : Option String → Bool
  | none => false
  | some s => s ≠ ""

/-- Step A filter: keep records with `source == 'workstation'` and a truthy
`workstation_name`. -/
def filterWorkstation (history_data : List Record) : List Record :=
  history_data.filter fun r =>
    r.source = some "workstation" && truthy r.workstation_name

/-- The records of the working set whose `workstation_name` equals
`'RECEIVE'`. -/
def receiveRecords (ws : List Record) : List Record :=
  ws.filter fun r => r.workstation_name = some "RECEIVE"

/-- `stations[name]`: the `{start, end}` pairs of the records visiting
`name`, in original encounter order (the stations dictionary appends while
scanning the working set in order). -/
def stationVisits (wd : List Record) (name : String) : List Visit :=
  (wd.filter fun r => r.workstation_name = some name).map fun r =>
    ⟨r.history_station_start_time, r.history_station_end_time⟩

/-- Sort key used for the RECEIVE boundary and the cycle filter. -/
def startKey (r : Record) : Dt := parse_timestamp r.history_station_start_time

/-- Sort key used when ordering visits by parsed `end` (VI1 and PACKING). -/
def endKey (v : Visit) : Dt := parse_timestamp v.end_

/-- Python `l[-1]` for a non-empty list (with a fallback for `[]`, which
the source never hits). -/
def lastD : List α → α → α
  | [], d => d
  | a :: rest, _ => lastD rest a

/-! ## Stable sorting, pure and monadic -/

/-- Insert into a sorted list, keeping existing elements first on ties
(stability, as Python's sort). -/
def insertK (le : α → α → Bool) (x : α) : List α → List α
  | [] => [x]
  | y :: ys => if le y x then y :: insertK le x ys else x :: y :: ys

/-- Stable insertion sort: the result of Python's stable `sorted` for a
total boolean comparison. -/
def isortAux (le : α → α → Bool) : List α → List α → List α
  | acc, [] => acc
  | acc, x :: xs => isortAux le (insertK le x acc) xs

/-- Stable sort by a boolean `le`. -/
def isortBy (le : α → α → Bool) (l : List α) : List α :=
  isortAux le [] l

/-- Monadic insertion step for `sorted(..., key=...)` where comparing two
keys can raise `TypeError`. -/
def insertByKeyM (key : α → Dt) (x : α) : List α → Except PyErr (List α)
  | [] => .ok [x]
  | y :: ys =>
      match dtLe (key y) (key x) with
      | .error e => .error e
      | .ok true =>
          match insertByKeyM key x ys with
          | .error e => .error e
          | .ok r => .ok (y :: r)
      | .ok false => .ok (x :: y :: ys)

/-- Monadic stable insertion sort accumulator. -/
def sortAuxM (key : α → Dt) : List α → List α → Except PyErr (List α)
  | acc, [] => .ok acc
  | acc, x :: xs =>
      match insertByKeyM key x acc with
      | .error e => .error e
      | .ok acc' => sortAuxM key acc' xs

/-- Model of Python `sorted(l, key=...)` on datetime keys: a stable sort
whose key comparisons can raise `TypeError` (mixed naive/aware keys). On
totally comparable keys it agrees with CPython's stable sort. -/
def sortByKeyM (key : α → Dt) (l : List α) : Except PyErr (List α) :=
  sortAuxM key [] l

/-- Python list-comprehension filtering with a predicate that can raise
(the cycle filter compares datetimes inside the comprehension). -/
def filterME (p : α → Except PyErr Bool) : List α → Except PyErr (List α)
  | [] => .ok []
  | x :: xs =>
      match p x with
      | .error e => .error e
      | .ok b =>
          match filterME p xs with
          | .error e => .error e
          | .ok r => .ok (if b then x :: r else r)

/-- Lexicographic (code-point) comparison of character lists. -/
def ltChars : List Char → List Char → Bool
  | [], [] => false
  | [], _ :: _ => true
  | _ :: _, [] => false
  | x :: xs, y :: ys =>
      if x < y then true else if y < x then false else ltChars xs ys

/-- Python `<` on strings: lexicographic comparison by code point (the
comparison the source applies to raw ISO timestamp strings). -/
def strLtB (a b : String) : Bool := ltChars a.data b.data

/-! ## The milestone walk -/

/-- The candidate test used by every scan loop of the source
(`if t['start'] and bound and t['start'] > bound`): the visit's start and
the bound must be truthy strings and the start strictly greater
(lexicographic string comparison). -/
def startGt (bound : Option String) (v : Visit) : Bool :=
  match v.start, bound with
  | some s, some b => s ≠ "" && b ≠ "" && strLtB b s
  | _, _ => false

/-- The `for ... if ...: append; break` pattern: the first visit in
original order satisfying the candidate test. -/
def firstAfter (visits : List Visit) (bound : Option String) : Option Visit :=
  visits.find? (startGt bound)

/-- The start string of a candidate visit (candidates always have a truthy
start, so the fallback is never used). -/
def startStr (v : Visit) : String := v.start.getD ""

/-- Candidate list for the next station after VI1: at most one candidate
each from `Disassembly` (first) and `UPGRADE` (second). A candidate pairs
the station name with the visit it came from (the source stores the
visit's start, and for BBD-style candidates also its end). -/
def nextCandidates (dis upg : List Visit) (bound : Option String) :
    List (String × Visit) :=
  (match firstAfter dis bound with
   | some v => [("Disassembly", v)]
   | none => []) ++
  (match firstAfter upg bound with
   | some v => [("UPGRADE", v)]
   | none => [])

/-- Candidate list for the BBD/ASSY1 step: at most one candidate each from
`BBD`, `ASSY1`, `Assembley`, in that enumeration order. -/
def bbdCandidates (bbd assy1 assembley : List Visit) (bound : Option String) :
    List (String × Visit) :=
  (match firstAfter bbd bound with
   | some v => [("BBD", v)]
   | none => []) ++
  (match firstAfter assy1 bound with
   | some v => [("ASSY1", v)]
   | none => []) ++
  (match firstAfter assembley bound with
   | some v => [("Assembley", v)]
   | none => [])

/-- `candidates.sort(key=lambda x: x[1]); candidates[0]`: stable sort by
start string, then the first element (or none). Ties keep enumeration
order. -/
def chooseCandidate (cands : List (String × Visit)) : Option (String × Visit) :=
  (isortBy (fun a b => !strLtB (startStr b.2) (startStr a.2)) cands).head?

/-- Step B: most recent `RECEIVE` determines the cycle; restrict the
working set to records whose parsed `startTime` is `>=` the boundary's.
Without a `RECEIVE` record the full filtered list is the working set. -/
def cycleWorkingSet (ws : List Record) : Except PyErr (List Record) :=
  match receiveRecords ws with
  | [] => .ok ws
  | r :: rs =>
      match sortByKeyM startKey (r :: rs) with
      | .error e => .error e
      | .ok sortedRecv =>
          filterME
            (fun rec => dtGe (startKey rec) (startKey (lastD sortedRecv default)))
            ws

/-- Output of the VI1 part of the walk (result fields 2-8). -/
structure Vi1Out where
  vi1_end : Option String
  vi1_next_station : Option String
  vi1_next_start : Option String
  upgrade_end : Option String
  bbd_assy_station : Option String
  bbd_assy_start : Option String
  bbd_assy_end : Option String
deriving Repr, DecidableEq

/-- All-null VI1 output. -/
def emptyVi1 : Vi1Out := ⟨none, none, none, none, none, none, none⟩

/-- Steps 1-2 of the walk: VI1 end (most recent by parsed `end`), the next
station among Disassembly/UPGRADE, and - when the next station is UPGRADE -
the matching UPGRADE visit's end and the BBD/ASSY1/Assembley candidate
after it. -/
def vi1Section (wd : List Record) : Except PyErr Vi1Out :=
  match stationVisits wd "VI1" with
  | [] => .ok emptyVi1
  | v :: vs =>
      match sortByKeyM endKey (v :: vs) with
      | .error e => .error e
      | .ok sortedVi1 =>
          match chooseCandidate (nextCandidates (stationVisits wd "Disassembly")
              (stationVisits wd "UPGRADE") (lastD sortedVi1 default).end_) with
          | none => .ok { emptyVi1 with vi1_end := (lastD sortedVi1 default).end_ }
          | some (nm, cv) =>
              if nm = "UPGRADE" then
                match (stationVisits wd "UPGRADE").find?
                    (fun u => u.start = cv.start) with
                | none =>
                    .ok { emptyVi1 with
                          vi1_end := (lastD sortedVi1 default).end_
                          vi1_next_station := some nm
                          vi1_next_start := cv.start }
                | some mu =>
                    match chooseCandidate (bbdCandidates (stationVisits wd "BBD")
                        (stationVisits wd "ASSY1") (stationVisits wd "Assembley")
                        mu.end_) with
                    | none =>
                        .ok { emptyVi1 with
                              vi1_end := (lastD sortedVi1 default).end_
                              vi1_next_station := some nm
                              vi1_next_start := cv.start
                              upgrade_end := mu.end_ }
                    | some (bn, bv) =>
                        .ok { vi1_end := (lastD sortedVi1 default).end_
                              vi1_next_station := some nm
                              vi1_next_start := cv.start
                              upgrade_end := mu.end_
                              bbd_assy_station := some bn
                              bbd_assy_start := bv.start
                              bbd_assy_end := bv.end_ }
              else
                .ok { emptyVi1 with
                      vi1_end := (lastD sortedVi1 default).end_
                      vi1_next_station := some nm
                      vi1_next_start := cv.start }

/-- Step 3 of the walk: FLA/CHIFLASH after the BBD/ASSY1 end, guarded by
truthiness of `bbd_assy_station` and `bbd_assy_end`. Pure (string
comparisons only). -/
def flaSection (wd : List Record) (bbdStation bbdEnd : Option String) :
    Option String × Option String :=
  if truthy bbdStation && truthy bbdEnd then
    match chooseCandidate
        ((match firstAfter (stationVisits wd "FLA") bbdEnd with
          | some v => [("FLA", v)]
          | none => []) ++
         (match firstAfter (stationVisits wd "CHIFLASH") bbdEnd with
          | some v => [("CHIFLASH", v)]
          | none => [])) with
    | some (nm, v) => (some nm, v.start)
    | none => (none, none)
  else (none, none)

/-- Step 4 of the walk: most recent `PACKING` end (by parsed `end`), then
the first `SHIPPING` visit starting strictly after it. -/
def packingSection (wd : List Record) :
    Except PyErr (Option String × Option String) :=
  match stationVisits wd "PACKING" with
  | [] => .ok (none, none)
  | p :: ps =>
      match sortByKeyM endKey (p :: ps) with
      | .error e => .error e
      | .ok sortedPack =>
          match firstAfter (stationVisits wd "SHIPPING")
              (lastD sortedPack default).end_ with
          | some v => .ok ((lastD sortedPack default).end_, v.start)
          | none => .ok ((lastD sortedPack default).end_, none)

/-- The full result record of `process_raw_timestamps`. -/
structure PResult where
  serial_number : String
  vi1_end : Option String
  vi1_next_station : Option String
  vi1_next_start : Option String
  upgrade_end : Option String
  bbd_assy_station : Option String
  bbd_assy_start : Option String
  bbd_assy_end : Option String
  fla_chiflash_station : Option String
  fla_chiflash_start : Option String
  packing_end : Option String
  shipping_start : Option String
deriving Repr, DecidableEq

/-- The all-null result returned for empty or workstation-free inputs. -/
def emptyResult (sn : String) : PResult :=
  ⟨sn, none, none, none, none, none, none, none, none, none, none, none⟩

/-- `WebRawTimestampsExporter.process_raw_timestamps`: filter to
workstation records, restrict to the current cycle, then walk the
milestone graph. Any `TypeError` from a datetime comparison propagates. -/
def process_raw_timestamps (serial_number : String)
    (history_data : List Record) : Except PyErr PResult :=
  match history_data with
  | [] => .ok (emptyResult serial_number)
  | _ :: _ =>
      match filterWorkstation history_data with
      | [] => .ok (emptyResult serial_number)
      | w :: ws =>
          match cycleWorkingSet (w :: ws) with
          | .error e => .error e
          | .ok wd =>
              match vi1Section wd with
              | .error e => .error e
              | .ok v =>
                  let fla := flaSection wd v.bbd_assy_station v.bbd_assy_end
                  match packingSection wd with
                  | .error e => .error e
                  | .ok (packing_end, shipping_start) =>
                      .ok { serial_number := serial_number
                            vi1_end := v.vi1_end
                            vi1_next_station := v.vi1_next_station
                            vi1_next_start := v.vi1_next_start
                            upgrade_end := v.upgrade_end
                            bbd_assy_station := v.bbd_assy_station
                            bbd_assy_start := v.bbd_assy_start
                            bbd_assy_end := v.bbd_assy_end
                            fla_chiflash_station := fla.1
                            fla_chiflash_start := fla.2
                            packing_end := packing_end
                            shipping_start := shipping_start }

/-! ## Concrete inputs used by the example theorems -/

/-- Build a workstation record. -/
def mkWs (nm : String) (s e : Option String) : Record :=
  ⟨some "workstation", some nm, s, e⟩

/-- Full-cycle example input: RECEIVE, then VI1, UPGRADE, BBD, FLA with
strictly increasing timestamps T0 < T1 < ... < T7. -/
def exampleFullCycle : List Record :=
  [mkWs "RECEIVE" (some "2024-01-01T08:00:00") none,
   mkWs "VI1" (some "2024-01-02T08:00:00") (some "2024-01-02T09:00:00"),
   mkWs "UPGRADE" (some "2024-01-03T08:00:00") (some "2024-01-03T09:00:00"),
   mkWs "BBD" (some "2024-01-04T08:00:00") (some "2024-01-04T09:00:00"),
   mkWs "FLA" (some "2024-01-05T08:00:00") none]

/-- The expected full-cycle result. -/
def exampleFullCycleResult : PResult :=
  { serial_number := "SN1"
    vi1_end := some "2024-01-02T09:00:00"
    vi1_next_station := some "UPGRADE"
    vi1_next_start := some "2024-01-03T08:00:00"
    upgrade_end := some "2024-01-03T09:00:00"
    bbd_assy_station := some "BBD"
    bbd_assy_start := some "2024-01-04T08:00:00"
    bbd_assy_end := some "2024-01-04T09:00:00"
    fla_chiflash_station := some "FLA"
    fla_chiflash_start := some "2024-01-05T08:00:00"
    packing_end := none
    shipping_start := none }

/-- Input mixing a timezone-aware RECEIVE timestamp with a record whose
start is missing (which parses to the naive `datetime.min`): the cycle
filter then compares a naive with an aware datetime. -/
def exampleMixedTz : List Record :=
  [mkWs "RECEIVE" (some "2024-01-01T00:00:00Z") none,
   mkWs "VI1" none none]

/-- Two RECEIVE visits R1 (earlier) and R2 (later) with a VI1 visit
strictly between them. -/
def exampleTwoReceives : List Record :=
  [mkWs "RECEIVE" (some "2024-01-01T00:00:00") none,
   mkWs "VI1" (some "2024-01-02T00:00:00") (some "2024-01-02T01:00:00"),
   mkWs "RECEIVE" (some "2024-01-03T00:00:00") none]

/-- Two PACKING visits plus a single SHIPPING visit that starts after the
earlier PACKING end but before the later (maximal) one. -/
def examplePackingWd : List Record :=
  [mkWs "PACKING" (some "2024-01-01T09:00:00") (some "2024-01-01T10:00:00"),
   mkWs "PACKING" (some "2024-01-03T09:00:00") (some "2024-01-03T10:00:00"),
   mkWs "SHIPPING" (some "2024-01-02T00:00:00") none]

/-! ## Basic lemmas about the list machinery -/

theorem lastD_mem {α : Type} : ∀ (l : List α) (d : α), l ≠ [] → lastD l d ∈ l := by
  intro l
  induction l with
  | nil => intro d h; exact absurd rfl h
  | cons a rest ih =>
      intro d _
      cases rest with
      | nil => simp [lastD]
      | cons b t =>
          have := ih a (by simp)
          simp only [lastD]
          exact List.mem_cons_of_mem a this

theorem mem_insertK {α : Type} {le : α → α → Bool} {x a : α} :
    ∀ {l : List α}, a ∈ insertK le x l ↔ a = x ∨ a ∈ l := by
  intro l
  induction l with
  | nil => simp [insertK]
  | cons y ys ih =>
      rw [insertK]
      by_cases h : le y x = true
      · rw [if_pos h]
        simp only [List.mem_cons, ih]
        tauto
      · rw [if_neg h]
        simp only [List.mem_cons]

theorem mem_isortAux {α : Type} {le : α → α → Bool} {a : α} :
    ∀ {l acc : List α}, a ∈ isortAux le acc l ↔ a ∈ acc ∨ a ∈ l := by
  intro l
  induction l with
  | nil => simp [isortAux]
  | cons x xs ih =>
      intro acc
      rw [isortAux, ih]
      simp only [mem_insertK, List.mem_cons]
      tauto

theorem head?_mem {α : Type} {l : List α} {a : α} (h : l.head? = some a) : a ∈ l := by
  cases l with
  | nil => simp at h
  | cons x xs =>
      simp only [List.head?_cons, Option.some.injEq] at h
      exact h ▸ List.mem_cons_self x xs

theorem chooseCandidate_mem {cands : List (String × Visit)} {c : String × Visit}
    (h : chooseCandidate cands = some c) : c ∈ cands := by
  have := head?_mem h
  exact (mem_isortAux.mp this).elim (by simp) id

theorem find?_first {α : Type} {p : α → Bool} :
    ∀ {l : List α} {v : α}, l.find? p = some v →
      p v = true ∧ ∃ pre post, l = pre ++ v :: post ∧ ∀ w ∈ pre, p w = false := by
  intro l
  induction l with
  | nil => intro v h; simp [List.find?] at h
  | cons x xs ih =>
      intro v h
      cases hp : p x with
      | true =>
          rw [List.find?_cons_of_pos _ hp] at h
          cases h
          exact ⟨hp, [], xs, rfl, by simp⟩
      | false =>
          rw [List.find?_cons_of_neg _ (by simp [hp])] at h
          obtain ⟨hv, pre, post, heq, hpre⟩ := ih h
          refine ⟨hv, x :: pre, post, by rw [heq]; rfl, ?_⟩
          intro w hw
          rcases List.mem_cons.mp hw with rfl | hw'
          · exact hp
          · exact hpre w hw'

theorem filterME_congr {α : Type} {p : α → Except PyErr Bool} {q : α → Bool} :
    ∀ {l : List α}, (∀ x ∈ l, p x = .ok (q x)) → filterME p l = .ok (l.filter q) := by
  intro l
  induction l with
  | nil => intro _; rfl
  | cons x xs ih =>
      intro h
      have hx := h x (List.mem_cons_self x xs)
      have hxs := ih fun y hy => h y (List.mem_cons_of_mem x hy)
      rw [filterME, hx, hxs, List.filter_cons]

def pureLe {α : Type} (key : α → Dt) (a b : α) : Bool :=
  decide (naivePart (key a) ≤ naivePart (key b))

theorem dtLe_of_naive {a b : Dt} (ha : dtIsNaive a = true) (hb : dtIsNaive b = true) :
    dtLe a b = .ok (decide (naivePart a ≤ naivePart b)) := by
  cases a <;> cases b <;> simp_all [dtIsNaive, dtLe, naivePart]

theorem insertByKeyM_naive {α : Type} {key : α → Dt} {x : α} :
    ∀ {l : List α}, dtIsNaive (key x) = true → (∀ y ∈ l, dtIsNaive (key y) = true) →
      insertByKeyM key x l = .ok (insertK (pureLe key) x l) := by
  intro l
  induction l with
  | nil => intro _ _; rfl
  | cons y ys ih =>
      intro hx hl
      have hy := hl y (List.mem_cons_self y ys)
      have hrec := ih hx fun z hz => hl z (List.mem_cons_of_mem y hz)
      simp only [insertByKeyM, dtLe_of_naive hy hx]
      by_cases hle : naivePart (key y) ≤ naivePart (key x)
      · simp [insertK, pureLe, hle, hrec]
      · simp [insertK, pureLe, hle]

theorem sortAuxM_naive {α : Type} {key : α → Dt} :
    ∀ {l acc : List α}, (∀ y ∈ l, dtIsNaive (key y) = true) →
      (∀ y ∈ acc, dtIsNaive (key y) = true) →
      sortAuxM key acc l = .ok (isortAux (pureLe key) acc l) := by
  intro l
  induction l with
  | nil => intro acc _ _; rfl
  | cons x xs ih =>
      intro acc hl hacc
      have hx := hl x (List.mem_cons_self x xs)
      have hins := insertByKeyM_naive hx hacc
      rw [sortAuxM, hins, isortAux]
      exact ih (fun y hy => hl y (List.mem_cons_of_mem x hy))
        (fun y hy => (mem_insertK.mp hy).elim (fun e => e ▸ hx) (hacc y))

theorem sortByKeyM_naive {α : Type} {key : α → Dt} {l : List α}
    (hl : ∀ y ∈ l, dtIsNaive (key y) = true) :
    sortByKeyM key l = .ok (isortBy (pureLe key) l) :=
  sortAuxM_naive hl (by simp)

theorem insertK_pairwise {α : Type} {key : α → Dt} {x : α} :
    ∀ {l : List α},
      l.Pairwise (fun a b => naivePart (key a) ≤ naivePart (key b)) →
      (insertK (pureLe key) x l).Pairwise
        (fun a b => naivePart (key a) ≤ naivePart (key b)) := by
  intro l
  induction l with
  | nil => intro _; simp [insertK]
  | cons y ys ih =>
      intro hp
      rw [List.pairwise_cons] at hp
      obtain ⟨hy, hys⟩ := hp
      rw [insertK]
      by_cases hle : pureLe key y x = true
      · rw [if_pos hle]
        rw [List.pairwise_cons]
        refine ⟨?_, ih hys⟩
        intro z hz
        rcases mem_insertK.mp hz with rfl | hz'
        · exact of_decide_eq_true hle
        · exact hy z hz'
      · rw [if_neg hle]
        have hxy : naivePart (key x) ≤ naivePart (key y) :=
          le_of_not_le fun hc => hle (decide_eq_true hc)
        rw [List.pairwise_cons]
        refine ⟨?_, List.pairwise_cons.mpr ⟨hy, hys⟩⟩
        intro z hz
        rcases List.mem_cons.mp hz with rfl | hz'
        · exact hxy
        · exact le_trans hxy (hy z hz')

theorem isortAux_pairwise {α : Type} {key : α → Dt} :
    ∀ {l acc : List α},
      acc.Pairwise (fun a b => naivePart (key a) ≤ naivePart (key b)) →
      (isortAux (pureLe key) acc l).Pairwise
        (fun a b => naivePart (key a) ≤ naivePart (key b)) := by
  intro l
  induction l with
  | nil => intro acc h; exact h
  | cons x xs ih =>
      intro acc h
      exact ih (insertK_pairwise h)

theorem pairwise_le_lastD {α : Type} {key : α → Dt} :
    ∀ {l : List α} (d : α) {a : α},
      l.Pairwise (fun a b => naivePart (key a) ≤ naivePart (key b)) →
      a ∈ l → naivePart (key a) ≤ naivePart (key (lastD l d)) := by
  intro l
  induction l with
  | nil => intro d a _ ha; simp at ha
  | cons y ys ih =>
      intro d a hp ha
      rw [List.pairwise_cons] at hp
      obtain ⟨hy, hys⟩ := hp
      simp only [lastD]
      rcases List.mem_cons.mp ha with rfl | ha'
      · cases ys with
        | nil => simp [lastD]
        | cons z t => exact hy _ (lastD_mem (z :: t) a (by simp))
      · exact ih y hys ha'

theorem startGt_none (v : Visit) : startGt none v = false := by
  cases h : v.start <;> simp [startGt, h]

theorem firstAfter_none (l : List Visit) : firstAfter l none = none := by
  unfold firstAfter
  exact List.find?_eq_none.mpr fun x _ => by simp [startGt_none]

theorem nextCandidates_mem {dis upg : List Visit} {b : Option String}
    {c : String × Visit} (h : c ∈ nextCandidates dis upg b) :
    (c.1 = "Disassembly" ∧ firstAfter dis b = some c.2) ∨
    (c.1 = "UPGRADE" ∧ firstAfter upg b = some c.2) := by
  unfold nextCandidates at h
  rw [List.mem_append] at h
  rcases h with h | h
  · left
    cases hd : firstAfter dis b with
    | none => rw [hd] at h; simp at h
    | some v =>
        rw [hd] at h
        simp only [List.mem_singleton] at h
        subst h
        exact ⟨rfl, rfl⟩
  · right
    cases hu : firstAfter upg b with
    | none => rw [hu] at h; simp at h
    | some v =>
        rw [hu] at h
        simp only [List.mem_singleton] at h
        subst h
        exact ⟨rfl, rfl⟩

theorem process_ok_parts {sn : String} {hist : List Record} {r : PResult}
    (h : process_raw_timestamps sn hist = .ok r) :
    ∃ wd v pe ss,
      cycleWorkingSet (filterWorkstation hist) = .ok wd ∧
      vi1Section wd = .ok v ∧
      packingSection wd = .ok (pe, ss) ∧
      r.vi1_end = v.vi1_end ∧ r.vi1_next_station = v.vi1_next_station ∧
      r.vi1_next_start = v.vi1_next_start ∧ r.upgrade_end = v.upgrade_end ∧
      r.bbd_assy_station = v.bbd_assy_station ∧ r.bbd_assy_start = v.bbd_assy_start ∧
      r.bbd_assy_end = v.bbd_assy_end ∧
      (r.fla_chiflash_station, r.fla_chiflash_start) =
        flaSection wd v.bbd_assy_station v.bbd_assy_end ∧
      r.packing_end = pe ∧ r.shipping_start = ss := by
  cases hist with
  | nil =>
      cases h
      exact ⟨[], emptyVi1, none, none, rfl, rfl, rfl, rfl, rfl, rfl, rfl, rfl,
        rfl, rfl, rfl, rfl, rfl⟩
  | cons a t =>
      simp only [process_raw_timestamps] at h
      split at h
      · rename_i hf
        cases h
        refine ⟨[], emptyVi1, none, none, ?_, rfl, rfl, rfl, rfl, rfl, rfl, rfl,
          rfl, rfl, rfl, rfl, rfl⟩
        rw [hf]
        rfl
      · rename_i w ws' hf
        split at h
        · exact Except.noConfusion h
        rename_i wd hcw
        split at h
        · exact Except.noConfusion h
        rename_i v hv
        split at h
        · exact Except.noConfusion h
        rename_i pe ss hp
        cases h
        exact ⟨wd, v, pe, ss, by rw [hf]; exact hcw, hv, hp, rfl, rfl, rfl, rfl,
          rfl, rfl, rfl, rfl, rfl, rfl⟩

/-! ## Claim theorems and witnesses -/

/-- C1: end-to-end example. For the input visit list RECEIVE(start=T0),
VI1(start=T1, end=T2), UPGRADE(start=T3, end=T4), BBD(start=T5, end=T6),
FLA(start=T7) with strictly increasing well-formed ISO timestamps
T0 < T1 < ... < T7 and source tag "workstation", the extractor returns
vi1End=T2, vi1NextStation=UPGRADE, vi1NextStart=T3, upgradeEnd=T4,
bbdAssyStation=BBD, bbdAssyStart=T5, bbdAssyEnd=T6, flaChiflashStation=FLA,
flaChiflashStart=T7, and packingEnd and shippingStart null. -/
theorem process_full_cycle_example :
    (strLtB "2024-01-01T08:00:00" "2024-01-02T08:00:00" = true ∧
     strLtB "2024-01-02T08:00:00" "2024-01-02T09:00:00" = true ∧
     strLtB "2024-01-02T09:00:00" "2024-01-03T08:00:00" = true ∧
     strLtB "2024-01-03T08:00:00" "2024-01-03T09:00:00" = true ∧
     strLtB "2024-01-03T09:00:00" "2024-01-04T08:00:00" = true ∧
     strLtB "2024-01-04T08:00:00" "2024-01-04T09:00:00" = true ∧
     strLtB "2024-01-04T09:00:00" "2024-01-05T08:00:00" = true) ∧
    process_raw_timestamps "SN1" exampleFullCycle = .ok exampleFullCycleResult :=
  ⟨by decide, by rfl⟩

/-- C8: for an input list that is empty or whose records all fail the
filter (source tag not "workstation" or station name absent/empty), the
extractor returns the serial number with all eleven other fields null; and
the filter retains exactly the records with source tag "workstation" and a
present (truthy) station name. -/
theorem process_empty_or_filtered_out (sn : String) (history_data : List Record) :
    (filterWorkstation history_data = [] →
      process_raw_timestamps sn history_data = .ok (emptyResult sn)) ∧
    (∀ r, r ∈ filterWorkstation history_data ↔
      r ∈ history_data ∧ r.source = some "workstation" ∧
        truthy r.workstation_name = true) := by
  constructor
  · intro h
    cases history_data with
    | nil => rfl
    | cons a t =>
        simp only [process_raw_timestamps, h]
  · intro r
    simp [filterWorkstation, List.mem_filter]

/-- Witness for C8 at a concrete non-workstation input. -/
theorem process_empty_or_filtered_out_witness :
    process_raw_timestamps "SN"
      [({ source := some "api", workstation_name := some "VI1",
          history_station_start_time := none,
          history_station_end_time := none } : Record)] = .ok (emptyResult "SN") :=
  (process_empty_or_filtered_out "SN" _).1 (by decide)

/-- Counterexample to C3: with a timezone-aware RECEIVE timestamp and a
record whose start is missing (parsing to the naive `datetime.min`), the
cycle filter's `>=` comparison mixes naive and aware datetimes and a
`TypeError` escapes the extractor. -/
theorem process_mixed_tz_raises :
    process_raw_timestamps "SN" exampleMixedTz = .error .typeError := by rfl

/-- Counterexample to C9: the string "0001-01-01T00:00:00" is a parseable
ISO-8601 timestamp, but the display transform raises an uncaught
`OverflowError` (subtracting 8 hours leaves the datetime range) instead of
returning a formatted string. -/
theorem convert_min_overflow :
    convert_to_raw_timestamp "0001-01-01T00:00:00" = .error .overflowError := by rfl

/-- C5: a filtered workstation record with a missing start or end is still
included in its station's group, but every candidate selected by a
"strictly greater than" scan has a truthy start (and a truthy bound), so
records with missing timestamps are silently skipped as candidates. -/
theorem null_timestamps_grouped_not_candidates :
    (∀ (wd : List Record) (r : Record) (n : String), r ∈ wd →
      r.workstation_name = some n →
      (⟨r.history_station_start_time, r.history_station_end_time⟩ : Visit) ∈
        stationVisits wd n) ∧
    (∀ (visits : List Visit) (bound : Option String) (v : Visit),
      firstAfter visits bound = some v →
      ∃ s b, v.start = some s ∧ s ≠ "" ∧ bound = some b ∧ b ≠ "" ∧
        strLtB b s = true) := by
  constructor
  · intro wd r n hr hn
    simp only [stationVisits, List.mem_map]
    exact ⟨r, List.mem_filter.mpr ⟨hr, by simp [hn]⟩, rfl⟩
  · intro visits bound v h
    have hp := List.find?_some h
    obtain ⟨vs, ve⟩ := v
    cases vs with
    | none => cases bound <;> simp [startGt] at hp
    | some s =>
        cases bound with
        | none => simp [startGt] at hp
        | some b =>
            simp only [startGt, Bool.and_eq_true, decide_eq_true_eq, ne_eq] at hp
            exact ⟨s, b, rfl, hp.1.1, rfl, hp.1.2, hp.2⟩

/-- Witness for C5: a VI1 record with null timestamps is grouped, and a
concrete scan candidate has a truthy start above the truthy bound. -/
theorem null_timestamps_grouped_not_candidates_witness :
    (⟨none, none⟩ : Visit) ∈ stationVisits [mkWs "VI1" none none] "VI1" ∧
    ∃ s b, (⟨some "b", none⟩ : Visit).start = some s ∧ s ≠ "" ∧
      (some "a" : Option String) = some b ∧ b ≠ "" ∧ strLtB b s = true :=
  ⟨null_timestamps_grouped_not_candidates.1 [mkWs "VI1" none none]
      (mkWs "VI1" none none) "VI1" (List.mem_singleton.mpr rfl) rfl,
    null_timestamps_grouped_not_candidates.2 [⟨some "b", none⟩] (some "a")
      ⟨some "b", none⟩ (by rfl)⟩

theorem chooseCandidate_nil : chooseCandidate [] = none := rfl

theorem nextCandidates_bound_none (dis upg : List Visit) :
    nextCandidates dis upg none = [] := by
  simp [nextCandidates, firstAfter_none]

theorem vi1Section_inv {wd : List Record} {out : Vi1Out}
    (h : vi1Section wd = .ok out) :
    (stationVisits wd "VI1" = [] ∧ out = emptyVi1) ∨
    ∃ sorted,
      sortByKeyM endKey (stationVisits wd "VI1") = .ok sorted ∧
      out.vi1_end = (lastD sorted default).end_ ∧
      ((chooseCandidate (nextCandidates (stationVisits wd "Disassembly")
          (stationVisits wd "UPGRADE") out.vi1_end) = none ∧
        out.vi1_next_station = none ∧ out.vi1_next_start = none ∧
        out.upgrade_end = none ∧ out.bbd_assy_station = none ∧
        out.bbd_assy_start = none ∧ out.bbd_assy_end = none) ∨
       ∃ nm cv,
         chooseCandidate (nextCandidates (stationVisits wd "Disassembly")
           (stationVisits wd "UPGRADE") out.vi1_end) = some (nm, cv) ∧
         out.vi1_next_station = some nm ∧ out.vi1_next_start = cv.start ∧
         ((nm ≠ "UPGRADE" ∧ out.upgrade_end = none ∧
           out.bbd_assy_station = none ∧ out.bbd_assy_start = none ∧
           out.bbd_assy_end = none) ∨
          (nm = "UPGRADE" ∧
           (((stationVisits wd "UPGRADE").find? (fun u => u.start = cv.start) =
               none ∧
             out.upgrade_end = none ∧ out.bbd_assy_station = none ∧
             out.bbd_assy_start = none ∧ out.bbd_assy_end = none) ∨
            ∃ mu,
              (stationVisits wd "UPGRADE").find? (fun u => u.start = cv.start) =
                some mu ∧
              out.upgrade_end = mu.end_ ∧
              ((chooseCandidate (bbdCandidates (stationVisits wd "BBD")
                  (stationVisits wd "ASSY1") (stationVisits wd "Assembley")
                  mu.end_) = none ∧
                out.bbd_assy_station = none ∧ out.bbd_assy_start = none ∧
                out.bbd_assy_end = none) ∨
               ∃ bn bv,
                 chooseCandidate (bbdCandidates (stationVisits wd "BBD")
                   (stationVisits wd "ASSY1") (stationVisits wd "Assembley")
                   mu.end_) = some (bn, bv) ∧
                 out.bbd_assy_station = some bn ∧
                 out.bbd_assy_start = bv.start ∧
                 out.bbd_assy_end = bv.end_))))) := by
  unfold vi1Section at h
  split at h
  · rename_i hv
    cases h
    exact Or.inl ⟨hv, rfl⟩
  · rename_i v0 vs hv
    split at h
    · exact Except.noConfusion h
    rename_i sorted hs
    split at h
    · rename_i hc
      cases h
      exact Or.inr ⟨sorted, by rw [hv]; exact hs, rfl,
        Or.inl ⟨hc, rfl, rfl, rfl, rfl, rfl, rfl⟩⟩
    · rename_i nm cv hc
      split at h
      · rename_i hnm
        split at h
        · rename_i hf
          cases h
          exact Or.inr ⟨sorted, by rw [hv]; exact hs, rfl,
            Or.inr ⟨nm, cv, hc, rfl, rfl,
              Or.inr ⟨hnm, Or.inl ⟨hf, rfl, rfl, rfl, rfl⟩⟩⟩⟩
        · rename_i mu hf
          split at h
          · rename_i hbc
            cases h
            exact Or.inr ⟨sorted, by rw [hv]; exact hs, rfl,
              Or.inr ⟨nm, cv, hc, rfl, rfl,
                Or.inr ⟨hnm, Or.inr ⟨mu, hf, rfl,
                  Or.inl ⟨hbc, rfl, rfl, rfl⟩⟩⟩⟩⟩
          · rename_i bn bv hbc
            cases h
            exact Or.inr ⟨sorted, by rw [hv]; exact hs, rfl,
              Or.inr ⟨nm, cv, hc, rfl, rfl,
                Or.inr ⟨hnm, Or.inr ⟨mu, hf, rfl,
                  Or.inr ⟨bn, bv, hbc, rfl, rfl, rfl⟩⟩⟩⟩⟩
      · rename_i hnm
        cases h
        exact Or.inr ⟨sorted, by rw [hv]; exact hs, rfl,
          Or.inr ⟨nm, cv, hc, rfl, rfl,
            Or.inl ⟨hnm, rfl, rfl, rfl, rfl⟩⟩⟩

/-- C4: next-station selection after VI1. With a non-null `vi1End`, at most
one candidate is taken from each of Disassembly and UPGRADE — namely the
first visit in original list order whose start is strictly greater than
`vi1End` — the winner is the candidate with the lexicographically smaller
start string, Disassembly winning exact ties; and `vi1Section` writes
exactly this winner into the next-station fields. -/
theorem next_station_selection :
    (∀ (dis upg : List Visit) (b : String), b ≠ "" →
      (nextCandidates dis upg (some b)).length ≤ 2 ∧
      (∀ c ∈ nextCandidates dis upg (some b),
        (c.1 = "Disassembly" ∧ firstAfter dis (some b) = some c.2) ∨
        (c.1 = "UPGRADE" ∧ firstAfter upg (some b) = some c.2)) ∧
      chooseCandidate (nextCandidates dis upg (some b)) =
        (match firstAfter dis (some b), firstAfter upg (some b) with
         | some d, some u =>
             some (if strLtB (startStr u) (startStr d) then ("UPGRADE", u)
                   else ("Disassembly", d))
         | some d, none => some ("Disassembly", d)
         | none, some u => some ("UPGRADE", u)
         | none, none => none)) ∧
    (∀ (visits : List Visit) (bound : Option String) (v : Visit),
      firstAfter visits bound = some v →
      startGt bound v = true ∧
      ∃ pre post, visits = pre ++ v :: post ∧ ∀ w ∈ pre, startGt bound w = false) ∧
    (∀ (wd : List Record) (out : Vi1Out), vi1Section wd = .ok out →
      out.vi1_next_station =
        (chooseCandidate (nextCandidates (stationVisits wd "Disassembly")
          (stationVisits wd "UPGRADE") out.vi1_end)).map Prod.fst ∧
      out.vi1_next_start =
        (chooseCandidate (nextCandidates (stationVisits wd "Disassembly")
          (stationVisits wd "UPGRADE") out.vi1_end)).bind
          (fun c => c.2.start)) := by
  refine ⟨?_, ?_, ?_⟩
  · intro dis upg b _
    refine ⟨?_, ?_, ?_⟩
    · unfold nextCandidates
      cases firstAfter dis (some b) <;> cases firstAfter upg (some b) <;> simp
    · intro c hc
      exact nextCandidates_mem hc
    · cases hd : firstAfter dis (some b) <;> cases hu : firstAfter upg (some b) <;>
        simp only [nextCandidates, hd, hu]
      · rfl
      · rename_i u
        rfl
      · rename_i d
        rfl
      · rename_i d u
        cases hlt : strLtB (startStr u) (startStr d) <;>
          simp [chooseCandidate, isortBy, isortAux, insertK, hlt]
  · intro visits bound v h
    unfold firstAfter at h
    exact find?_first h
  · intro wd out h
    rcases vi1Section_inv h with ⟨_, rfl⟩ | ⟨_, _, _, hrest⟩
    · constructor <;>
        simp [emptyVi1, nextCandidates_bound_none, chooseCandidate_nil]
    · rcases hrest with ⟨hc, hst, hsa, _⟩ | ⟨nm, cv, hc, hst, hsa, _⟩
      · rw [hc, hst, hsa]
        exact ⟨rfl, rfl⟩
      · rw [hc, hst, hsa]
        exact ⟨rfl, rfl⟩

/-- Witness for C4: with UPGRADE start equal to Disassembly start (both
greater than the bound), Disassembly wins the tie. -/
theorem next_station_selection_witness :
    chooseCandidate (nextCandidates
      [⟨some "2024-01-03T08:00:00", none⟩]
      [⟨some "2024-01-03T08:00:00", some "2024-01-03T09:00:00"⟩]
      (some "2024-01-02T09:00:00")) =
      some ("Disassembly", ⟨some "2024-01-03T08:00:00", none⟩) :=
  ((next_station_selection.1
      [⟨some "2024-01-03T08:00:00", none⟩]
      [⟨some "2024-01-03T08:00:00", some "2024-01-03T09:00:00"⟩]
      "2024-01-02T09:00:00" (by decide)).2.2).trans (by rfl)

/-- C7: `upgradeEnd` is populated only when the next station is UPGRADE,
and in that case it is the end of the first UPGRADE visit (in original
order) whose start equals `vi1NextStart`; when the next station is
Disassembly or null, `upgradeEnd` and the three BBD/ASSY fields stay null.
The extractor's result fields agree with `vi1Section`'s. -/
theorem upgrade_end_gating :
    (∀ (wd : List Record) (out : Vi1Out), vi1Section wd = .ok out →
      (out.upgrade_end ≠ none → out.vi1_next_station = some "UPGRADE") ∧
      (out.vi1_next_station = some "UPGRADE" →
        out.upgrade_end = ((stationVisits wd "UPGRADE").find?
          (fun u => u.start = out.vi1_next_start)).bind Visit.end_) ∧
      ((out.vi1_next_station = some "Disassembly" ∨
        out.vi1_next_station = none) →
        out.upgrade_end = none ∧ out.bbd_assy_station = none ∧
        out.bbd_assy_start = none ∧ out.bbd_assy_end = none)) ∧
    (∀ (sn : String) (hist : List Record) (r : PResult),
      process_raw_timestamps sn hist = .ok r →
      ∃ wd out, cycleWorkingSet (filterWorkstation hist) = .ok wd ∧
        vi1Section wd = .ok out ∧ r.upgrade_end = out.upgrade_end ∧
        r.vi1_next_station = out.vi1_next_station ∧
        r.vi1_next_start = out.vi1_next_start ∧
        r.bbd_assy_station = out.bbd_assy_station ∧
        r.bbd_assy_start = out.bbd_assy_start ∧
        r.bbd_assy_end = out.bbd_assy_end) := by
  constructor
  · intro wd out h
    rcases vi1Section_inv h with ⟨_, rfl⟩ | ⟨_, _, _, hrest⟩
    · exact ⟨fun hne => absurd rfl hne, fun hst => by simp [emptyVi1] at hst,
        fun _ => ⟨rfl, rfl, rfl, rfl⟩⟩
    · rcases hrest with ⟨_, hst, _, hue, hb1, hb2, hb3⟩ |
        ⟨nm, cv, _, hst, hsa, hrest2⟩
      · refine ⟨fun hne => absurd hue hne, fun hc => ?_, fun _ => ⟨hue, hb1, hb2, hb3⟩⟩
        rw [hst] at hc
        exact Option.noConfusion hc
      · rcases hrest2 with ⟨hnm, hue, hb1, hb2, hb3⟩ | ⟨hnm, hrest3⟩
        · refine ⟨fun hne => absurd hue hne, fun hc => ?_,
            fun _ => ⟨hue, hb1, hb2, hb3⟩⟩
          rw [hst] at hc
          exact absurd (Option.some.injEq _ _ ▸ hc) hnm
        · subst hnm
          rcases hrest3 with ⟨hf, hue, hb1, hb2, hb3⟩ | ⟨mu, hf, hue, _⟩
          · refine ⟨fun hne => absurd hue hne, fun _ => ?_, fun hd => ?_⟩
            · rw [hue, hsa, hf]
              rfl
            · rcases hd with hd | hd <;> rw [hst] at hd <;> simp at hd
          · refine ⟨fun _ => hst, fun _ => ?_, fun hd => ?_⟩
            · rw [hue, hsa, hf]
              rfl
            · rcases hd with hd | hd <;> rw [hst] at hd <;> simp at hd
  · intro sn hist r h
    obtain ⟨wd, v, pe, ss, hcw, hv, _, _, h2, h3, h4, h5, h6, h7, _⟩ :=
      process_ok_parts h
    exact ⟨wd, v, hcw, hv, h4, h2, h3, h5, h6, h7⟩

/-- Witness for C7 at the full-cycle example: the next station is UPGRADE
and `upgradeEnd` comes from the matching UPGRADE visit. -/
theorem upgrade_end_gating_witness :
    (⟨some "2024-01-02T09:00:00", some "UPGRADE", some "2024-01-03T08:00:00",
      some "2024-01-03T09:00:00", some "BBD", some "2024-01-04T08:00:00",
      some "2024-01-04T09:00:00"⟩ : Vi1Out).vi1_next_station =
      some "UPGRADE" :=
  (upgrade_end_gating.1 exampleFullCycle
    ⟨some "2024-01-02T09:00:00", some "UPGRADE", some "2024-01-03T08:00:00",
     some "2024-01-03T09:00:00", some "BBD", some "2024-01-04T08:00:00",
     some "2024-01-04T09:00:00"⟩ (by rfl)).1 (by decide)

/-- C10: whenever `vi1Section` sets the next station to UPGRADE, the scan
for an UPGRADE visit whose start equals `vi1NextStart` always finds one
(the chosen candidate itself came from the UPGRADE group), so `upgradeEnd`
is always assigned from some UPGRADE visit — whose end may itself be
null. -/
theorem upgrade_match_always_found :
    ∀ (wd : List Record) (out : Vi1Out), vi1Section wd = .ok out →
      out.vi1_next_station = some "UPGRADE" →
      ∃ v, v ∈ stationVisits wd "UPGRADE" ∧ v.start = out.vi1_next_start ∧
        out.upgrade_end = v.end_ := by
  intro wd out h hupg
  rcases vi1Section_inv h with ⟨_, rfl⟩ | ⟨_, _, _, hrest⟩
  · exact absurd hupg (by simp [emptyVi1])
  · rcases hrest with ⟨_, hst, _, _⟩ | ⟨nm, cv, hc, hst, hsa, hrest2⟩
    · rw [hst] at hupg
      exact Option.noConfusion hupg
    · rw [hst] at hupg
      have hnm : nm = "UPGRADE" := Option.some.inj hupg
      subst hnm
      have hmem := chooseCandidate_mem hc
      rcases nextCandidates_mem hmem with ⟨hbad, _⟩ | ⟨_, hfa⟩
      · simp at hbad
      · unfold firstAfter at hfa
        have hcv_mem := List.mem_of_find?_eq_some hfa
        rcases hrest2 with ⟨hne, _⟩ | ⟨_, hrest3⟩
        · exact absurd rfl hne
        · rcases hrest3 with ⟨hf, _, _⟩ | ⟨mu, hf, hue, _⟩
          · exfalso
            have := List.find?_eq_none.mp hf cv hcv_mem
            simp at this
          · have hmu_mem := List.mem_of_find?_eq_some hf
            have hmu_start := List.find?_some hf
            simp only [decide_eq_true_eq] at hmu_start
            exact ⟨mu, hmu_mem, by rw [hmu_start, hsa], hue⟩

/-- Witness for C10 at the full-cycle example. -/
theorem upgrade_match_always_found_witness :
    ∃ v, v ∈ stationVisits exampleFullCycle "UPGRADE" ∧
      v.start = (⟨some "2024-01-02T09:00:00", some "UPGRADE",
        some "2024-01-03T08:00:00", some "2024-01-03T09:00:00", some "BBD",
        some "2024-01-04T08:00:00", some "2024-01-04T09:00:00"⟩ :
          Vi1Out).vi1_next_start ∧
      (⟨some "2024-01-02T09:00:00", some "UPGRADE", some "2024-01-03T08:00:00",
        some "2024-01-03T09:00:00", some "BBD", some "2024-01-04T08:00:00",
        some "2024-01-04T09:00:00"⟩ : Vi1Out).upgrade_end = v.end_ :=
  upgrade_match_always_found exampleFullCycle _ (by rfl) (by rfl)

theorem receiveRecords_subset {ws : List Record} :
    ∀ r ∈ receiveRecords ws, r ∈ ws := by
  intro r hr
  unfold receiveRecords at hr
  exact (List.mem_filter.mp hr).1

theorem stationVisits_mem {wd : List Record} {n : String} {v : Visit}
    (h : v ∈ stationVisits wd n) :
    ∃ r, r ∈ wd ∧
      (⟨r.history_station_start_time, r.history_station_end_time⟩ : Visit) = v := by
  simp only [stationVisits, List.mem_map] at h
  obtain ⟨r, hr, hv⟩ := h
  exact ⟨r, (List.mem_filter.mp hr).1, hv⟩

theorem startGt_true_bound {bound : Option String} {v : Visit}
    (h : startGt bound v = true) : ∃ b, bound = some b ∧ b ≠ "" := by
  obtain ⟨vs, ve⟩ := v
  cases vs with
  | none => cases bound <;> simp [startGt] at h
  | some s =>
      cases bound with
      | none => simp [startGt] at h
      | some b =>
          refine ⟨b, rfl, ?_⟩
          simp only [startGt, Bool.and_eq_true, decide_eq_true_eq, ne_eq] at h
          exact h.1.2

theorem cycleWorkingSet_naive_char {ws : List Record}
    (h : ∀ r ∈ ws, dtIsNaive (startKey r) = true)
    (hne : receiveRecords ws ≠ []) :
    ∃ m : Int,
      m ∈ (receiveRecords ws).map (fun r => naivePart (startKey r)) ∧
      (∀ r ∈ receiveRecords ws, naivePart (startKey r) ≤ m) ∧
      cycleWorkingSet ws = .ok
        (ws.filter fun r => decide (m ≤ naivePart (startKey r))) := by
  rcases hrec : receiveRecords ws with _ | ⟨r0, rs⟩
  · exact absurd hrec hne
  · have hsubR : ∀ x ∈ r0 :: rs, x ∈ ws := by
      intro x hx
      rw [← hrec] at hx
      exact receiveRecords_subset x hx
    have hnR : ∀ y ∈ r0 :: rs, dtIsNaive (startKey y) = true :=
      fun y hy => h y (hsubR y hy)
    have hsort := sortByKeyM_naive hnR
    have hpw : (isortBy (pureLe startKey) (r0 :: rs)).Pairwise
        (fun a b => naivePart (startKey a) ≤ naivePart (startKey b)) :=
      isortAux_pairwise List.Pairwise.nil
    have hmem0 : r0 ∈ isortBy (pureLe startKey) (r0 :: rs) :=
      mem_isortAux.mpr (Or.inr (List.mem_cons_self r0 rs))
    have hnn : isortBy (pureLe startKey) (r0 :: rs) ≠ [] :=
      List.ne_nil_of_mem hmem0
    have hlast_mem : lastD (isortBy (pureLe startKey) (r0 :: rs)) default ∈
        isortBy (pureLe startKey) (r0 :: rs) :=
      lastD_mem _ default hnn
    have hlast_rec :
        lastD (isortBy (pureLe startKey) (r0 :: rs)) default ∈ r0 :: rs :=
      (mem_isortAux.mp hlast_mem).elim
        (fun hx => absurd hx (List.not_mem_nil _)) id
    refine ⟨naivePart (startKey
      (lastD (isortBy (pureLe startKey) (r0 :: rs)) default)), ?_, ?_, ?_⟩
    · exact List.mem_map.mpr ⟨_, hlast_rec, rfl⟩
    · intro r hr
      exact pairwise_le_lastD default hpw (mem_isortAux.mpr (Or.inr hr))
    · have hfil : ∀ x ∈ ws,
          dtGe (startKey x)
            (startKey (lastD (isortBy (pureLe startKey) (r0 :: rs)) default)) =
          .ok (decide (naivePart (startKey
            (lastD (isortBy (pureLe startKey) (r0 :: rs)) default)) ≤
              naivePart (startKey x))) :=
        fun x hx => dtLe_of_naive (h _ (hsubR _ hlast_rec)) (h x hx)
      have hcong := filterME_congr hfil
      simp only [cycleWorkingSet, hrec, hsort]
      exact hcong

theorem cycleWorkingSet_ok_of_naive {ws : List Record}
    (h : ∀ r ∈ ws, dtIsNaive (startKey r) = true) :
    ∃ wd, cycleWorkingSet ws = .ok wd ∧ ∀ r ∈ wd, r ∈ ws := by
  rcases hrec : receiveRecords ws with _ | ⟨r0, rs⟩
  · exact ⟨ws, by simp [cycleWorkingSet, hrec], fun r hr => hr⟩
  · obtain ⟨m, _, _, hok⟩ := cycleWorkingSet_naive_char h (by rw [hrec]; simp)
    exact ⟨_, hok, fun r hr => (List.mem_filter.mp hr).1⟩

theorem vi1Section_ok_of_naive {wd : List Record}
    (h : ∀ v ∈ stationVisits wd "VI1", dtIsNaive (endKey v) = true) :
    ∃ out, vi1Section wd = .ok out := by
  rcases hv : stationVisits wd "VI1" with _ | ⟨v0, vs⟩
  · exact ⟨emptyVi1, by simp [vi1Section, hv]⟩
  · have hsort := @sortByKeyM_naive _ endKey _
      (fun y hy => h y (by rw [hv]; exact hy))
    rcases hc : chooseCandidate (nextCandidates (stationVisits wd "Disassembly")
        (stationVisits wd "UPGRADE")
        (lastD (isortBy (pureLe endKey) (v0 :: vs)) default).end_)
      with _ | ⟨nm, cv⟩
    · simp only [vi1Section, hv, hsort, hc]
      exact ⟨_, rfl⟩
    · by_cases hnm : nm = "UPGRADE"
      · subst hnm
        rcases hf : (stationVisits wd "UPGRADE").find?
            (fun u => u.start = cv.start) with _ | mu
        · simp only [vi1Section, hv, hsort, hc, hf]
          exact ⟨_, rfl⟩
        · rcases hbc : chooseCandidate (bbdCandidates (stationVisits wd "BBD")
              (stationVisits wd "ASSY1") (stationVisits wd "Assembley") mu.end_)
            with _ | ⟨bn, bv⟩
          · simp only [vi1Section, hv, hsort, hc, hf, hbc]
            exact ⟨_, rfl⟩
          · simp only [vi1Section, hv, hsort, hc, hf, hbc]
            exact ⟨_, rfl⟩
      · simp only [vi1Section, hv, hsort, hc, if_neg hnm]
        exact ⟨_, rfl⟩

theorem packingSection_ok_of_naive {wd : List Record}
    (h : ∀ v ∈ stationVisits wd "PACKING", dtIsNaive (endKey v) = true) :
    ∃ pe ss, packingSection wd = .ok (pe, ss) := by
  rcases hp : stationVisits wd "PACKING" with _ | ⟨p0, ps⟩
  · exact ⟨none, none, by simp [packingSection, hp]⟩
  · have hsort := @sortByKeyM_naive _ endKey _
      (fun y hy => h y (by rw [hp]; exact hy))
    rcases hfa : firstAfter (stationVisits wd "SHIPPING")
        (lastD (isortBy (pureLe endKey) (p0 :: ps)) default).end_ with _ | v
    · simp only [packingSection, hp, hsort, hfa]
      exact ⟨_, _, rfl⟩
    · simp only [packingSection, hp, hsort, hfa]
      exact ⟨_, _, rfl⟩

theorem packingSection_inv {wd : List Record} {pe ss : Option String}
    (h : packingSection wd = .ok (pe, ss)) :
    (stationVisits wd "PACKING" = [] ∧ pe = none ∧ ss = none) ∨
    ∃ sorted, sortByKeyM endKey (stationVisits wd "PACKING") = .ok sorted ∧
      pe = (lastD sorted default).end_ ∧
      ss = (match firstAfter (stationVisits wd "SHIPPING") pe with
            | some v => v.start
            | none => none) := by
  unfold packingSection at h
  split at h
  · rename_i hp
    simp only [Except.ok.injEq, Prod.mk.injEq] at h
    obtain ⟨rfl, rfl⟩ := h
    exact Or.inl ⟨hp, rfl, rfl⟩
  · rename_i p0 ps hp
    split at h
    · exact Except.noConfusion h
    rename_i sorted hs
    split at h
    · rename_i v hfa
      simp only [Except.ok.injEq, Prod.mk.injEq] at h
      obtain ⟨rfl, rfl⟩ := h
      refine Or.inr ⟨sorted, by rw [hp]; exact hs, rfl, ?_⟩
      rw [hfa]
    · rename_i hfa
      simp only [Except.ok.injEq, Prod.mk.injEq] at h
      obtain ⟨rfl, rfl⟩ := h
      refine Or.inr ⟨sorted, by rw [hp]; exact hs, rfl, ?_⟩
      rw [hfa]

/-- C2: cycle boundary and working set. If no RECEIVE record exists the
working set is the full filtered list. If RECEIVE records exist (and the
timestamps parse without timezone, so the datetime comparisons are
defined), the boundary is the RECEIVE record that is last after the stable
sort by parsed start time — its key is the maximum of the RECEIVE keys —
and the working set is exactly the records whose parsed start time is at
least that maximum. In particular, for RECEIVE R1, a VI1 visit strictly
between R1 and a later RECEIVE R2, the VI1 visit does not populate
`vi1End`: the whole result is null besides the serial number. -/
theorem receive_cycle_boundary :
    (∀ ws : List Record,
      (receiveRecords ws = [] → cycleWorkingSet ws = .ok ws) ∧
      ((∀ r ∈ ws, dtIsNaive (startKey r) = true) → receiveRecords ws ≠ [] →
        ∃ m : Int,
          m ∈ (receiveRecords ws).map (fun r => naivePart (startKey r)) ∧
          (∀ r ∈ receiveRecords ws, naivePart (startKey r) ≤ m) ∧
          cycleWorkingSet ws = .ok
            (ws.filter fun r => decide (m ≤ naivePart (startKey r))))) ∧
    process_raw_timestamps "SN" exampleTwoReceives = .ok (emptyResult "SN") := by
  refine ⟨fun ws => ⟨?_, ?_⟩, by rfl⟩
  · intro h
    simp [cycleWorkingSet, h]
  · intro hn hne
    exact cycleWorkingSet_naive_char hn hne

/-- Witness for C2 at the two-RECEIVE example. -/
theorem receive_cycle_boundary_witness :
    ∃ m : Int,
      m ∈ (receiveRecords exampleTwoReceives).map
        (fun r => naivePart (startKey r)) ∧
      (∀ r ∈ receiveRecords exampleTwoReceives, naivePart (startKey r) ≤ m) ∧
      cycleWorkingSet exampleTwoReceives = .ok
        (exampleTwoReceives.filter fun r =>
          decide (m ≤ naivePart (startKey r))) :=
  (receive_cycle_boundary.1 exampleTwoReceives).2 (by decide) (by decide)

/-- C3 (amended): the extractor returns normally on every input whose
timestamps all parse timezone-naive (including missing, null, empty and
malformed timestamps, which parse to the naive `datetime.min`); the
parser itself never raises. Mixing naive parses with timezone-aware ones
can raise `TypeError` (see the counterexample). -/
theorem process_all_naive_ok :
    ∀ (sn : String) (hist : List Record),
      (∀ r ∈ hist,
        dtIsNaive (parse_timestamp r.history_station_start_time) = true ∧
        dtIsNaive (parse_timestamp r.history_station_end_time) = true) →
      ∃ res, process_raw_timestamps sn hist = .ok res := by
  intro sn hist h
  cases hist with
  | nil => exact ⟨_, rfl⟩
  | cons a t =>
      rcases hf : filterWorkstation (a :: t) with _ | ⟨w, ws'⟩
      · simp only [process_raw_timestamps, hf]
        exact ⟨_, rfl⟩
      · have hsubf : ∀ r ∈ w :: ws', r ∈ a :: t := by
          intro r hr
          rw [← hf] at hr
          exact (List.mem_filter.mp hr).1
        have hn1 : ∀ r ∈ w :: ws', dtIsNaive (startKey r) = true :=
          fun r hr => (h r (hsubf r hr)).1
        obtain ⟨wd, hcw, hsub⟩ := cycleWorkingSet_ok_of_naive hn1
        have hwd_hist : ∀ r ∈ wd, r ∈ a :: t :=
          fun r hr => hsubf r (hsub r hr)
        have hv1 : ∀ v ∈ stationVisits wd "VI1", dtIsNaive (endKey v) = true := by
          intro v hv
          obtain ⟨r, hr, rfl⟩ := stationVisits_mem hv
          exact (h r (hwd_hist r hr)).2
        obtain ⟨out, hvs⟩ := vi1Section_ok_of_naive hv1
        have hp1 : ∀ v ∈ stationVisits wd "PACKING",
            dtIsNaive (endKey v) = true := by
          intro v hv
          obtain ⟨r, hr, rfl⟩ := stationVisits_mem hv
          exact (h r (hwd_hist r hr)).2
        obtain ⟨pe, ss, hps⟩ := packingSection_ok_of_naive hp1
        simp only [process_raw_timestamps, hf, hcw, hvs, hps]
        exact ⟨_, rfl⟩

/-- Witness for C3's amended theorem on an all-naive input. -/
theorem process_all_naive_ok_witness :
    ∃ res, process_raw_timestamps "SN" exampleTwoReceives = .ok res :=
  process_all_naive_ok "SN" exampleTwoReceives (by decide)

/-- C6: `packingEnd` is the end of the PACKING visit that is last after
the stable sort by parsed end, independently of the VI1/UPGRADE/BBD/FLA
fields (the packing fields of the result are exactly `packingSection` of
the working set); `shippingStart` is populated only when `packingEnd` is a
truthy string, taking the start of the first SHIPPING visit in original
order whose start is strictly greater — so a SHIPPING visit starting at or
before `packingEnd` is ignored even if it is the only SHIPPING record
(concrete instance at `examplePackingWd`). -/
theorem packing_shipping_independent :
    (∀ (wd : List Record) (pe ss : Option String),
      packingSection wd = .ok (pe, ss) →
      (stationVisits wd "PACKING" ≠ [] →
        ∃ sorted, sortByKeyM endKey (stationVisits wd "PACKING") = .ok sorted ∧
          pe = (lastD sorted default).end_) ∧
      ss = (match firstAfter (stationVisits wd "SHIPPING") pe with
            | some v => v.start
            | none => none) ∧
      (ss ≠ none → ∃ b, pe = some b ∧ b ≠ "")) ∧
    (∀ (sn : String) (hist : List Record) (r : PResult),
      process_raw_timestamps sn hist = .ok r →
      ∃ wd, cycleWorkingSet (filterWorkstation hist) = .ok wd ∧
        packingSection wd = .ok (r.packing_end, r.shipping_start)) ∧
    packingSection examplePackingWd = .ok (some "2024-01-03T10:00:00", none) := by
  refine ⟨?_, ?_, by rfl⟩
  · intro wd pe ss h
    rcases packingSection_inv h with ⟨hp, rfl, rfl⟩ | ⟨sorted, hs, hpe, hss⟩
    · refine ⟨fun hne => absurd hp hne, ?_, fun hne => absurd rfl hne⟩
      simp [firstAfter_none]
    · refine ⟨fun _ => ⟨sorted, hs, hpe⟩, hss, ?_⟩
      intro hne
      rcases hm : firstAfter (stationVisits wd "SHIPPING") pe with _ | v
      · rw [hm] at hss
        exact absurd hss hne
      · have hgt := List.find?_some hm
        exact startGt_true_bound hgt
  · intro sn hist r h
    obtain ⟨wd, v, pe, ss, hcw, _, hp, _, _, _, _, _, _, _, _, hpe, hss⟩ :=
      process_ok_parts h
    exact ⟨wd, hcw, by rw [hpe, hss]; exact hp⟩

/-- Witness for C6 at the packing example: the lone SHIPPING record starts
before the maximal packing end and is ignored. -/
theorem packing_shipping_independent_witness :
    (none : Option String) =
      (match firstAfter (stationVisits examplePackingWd "SHIPPING")
          (some "2024-01-03T10:00:00") with
       | some v => v.start
       | none => none) :=
  ((packing_shipping_independent.1 examplePackingWd
      (some "2024-01-03T10:00:00") none (by rfl)).2.1)

/-- C9 (amended): for every ISO-8601 string that parses (a trailing `Z`
reading as `+00:00`) to a value at least 8 hours after `datetime.min` (and
within the datetime range, which the 4-digit year format guarantees), the
display transform strips the timezone, subtracts 8 hours, adds 4 hours,
and formats the result as `%Y-%m-%d %H:%M:%S`; parseable values within the
first 8 hours of year 1 instead raise an uncaught `OverflowError` (see the
counterexample); every string that fails to parse is returned unchanged. -/
theorem convert_display_transform :
    ∀ (iso : String) (dt : Dt),
      (fromisoformat (pyReplaceZ iso) = some dt →
        8 * 3600 * 1000000 ≤ naivePart dt → naivePart dt ≤ (maxUs : Int) →
        convert_to_raw_timestamp iso =
          .ok (strftimeYmdHms
            (naivePart dt + (-8) * 3600 * 1000000 + 4 * 3600 * 1000000).toNat)) ∧
      (fromisoformat (pyReplaceZ iso) = none →
        convert_to_raw_timestamp iso = .ok iso) := by
  intro iso dt
  constructor
  · intro hp h8 hmax
    have hiso : ¬iso = "" := by
      intro he
      rw [he, show fromisoformat (pyReplaceZ "") = none from rfl] at hp
      exact Option.noConfusion hp
    have hA : ¬(naivePart dt + (-8) * 3600 * 1000000 < 0 ∨
        (maxUs : Int) < naivePart dt + (-8) * 3600 * 1000000) := by omega
    have hB : ¬(naivePart dt + (-8) * 3600 * 1000000 + 4 * 3600 * 1000000 < 0 ∨
        (maxUs : Int) <
          naivePart dt + (-8) * 3600 * 1000000 + 4 * 3600 * 1000000) := by
      omega
    simp only [convert_to_raw_timestamp, if_neg hiso, hp]
    rw [if_neg (by simpa using hA), if_neg (by simpa using hB)]
  · intro hp
    by_cases he : iso = ""
    · rw [he]
      rfl
    · simp only [convert_to_raw_timestamp, if_neg he, hp]

/-- Witness for C9's amended theorem: a concrete aware timestamp is
transformed to the expected display string. -/
theorem convert_display_transform_witness :
    convert_to_raw_timestamp "2024-06-01T12:00:00Z" = .ok "2024-06-01 08:00:00" :=
  ((convert_display_transform "2024-06-01T12:00:00Z"
      (.aware 63852840000000000 0)).1 (by rfl) (by decide) (by decide)).trans
    (by rfl)
